import Mathlib

/-!
Shallow embedding of the comm state reducer of
src/packages/core/src/reducers/comms.js.

The reducer state is an Immutable.js value: a map holding the three
sub-maps targets, models and info.  Plain JS payloads carried by
actions are modelled by Json; values stored in the state are modelled
by IVal, with fromJS translating the former into the latter exactly
as Immutable.fromJS does (objects become maps, arrays become lists,
scalars stay).  setIn and getIn follow the documented Immutable.js
semantics: setIn creates an empty map for every missing intermediate
key and throws when asked to descend through an existing
non-collection value; a throw is modelled as the Option value none.
-/

namespace CommsSpec

/-- A plain JSON-like JS value, as carried by action payloads. -/
inductive Json where
  | null : Json
  | bool : Bool → Json
  | num : Int → Json
  | str : String → Json
  | arr : List Json → Json
  | obj : List (String × Json) → Json

/-- A key inside an Immutable.js key path: a string or a number. -/
inductive Key where
  | str : String → Key
  | num : Int → Key
deriving DecidableEq

/-- An Immutable.js value stored in the reducer state.  ref is an
otherwise uninterpreted JS reference such as a comm target handler
function; only its identity matters. -/
inductive IVal where
  | null : IVal
  | bool : Bool → IVal
  | num : Int → IVal
  | str : String → IVal
  | list : List IVal → IVal
  | map : List (Key × IVal) → IVal
  | ref : Nat → IVal

/-- Lookup in an Immutable map, modelled as an association list. -/
def mapGet : List (Key × IVal) → Key → Option IVal
  | [], _ => none
  | (k', v) :: rest, k => if k' = k then some v else mapGet rest k

/-- Immutable Map.set: replace the entry in place, or append a new one. -/
def mapSet : List (Key × IVal) → Key → IVal → List (Key × IVal)
  | [], k, v => [(k, v)]
  | (k', v') :: rest, k, v =>
      if k' = k then (k, v) :: rest else (k', v') :: mapSet rest k v

/-- Zero-based index lookup in an Immutable list. -/
def listGet : List IVal → Nat → Option IVal
  | [], _ => none
  | x :: _, 0 => some x
  | _ :: rest, n + 1 => listGet rest n

/-- In-range index replacement in an Immutable list. -/
def listSet : List IVal → Nat → IVal → List IVal
  | [], _, _ => []
  | _ :: rest, 0, c => c :: rest
  | x :: rest, n + 1, c => x :: listSet rest n c

/-- Immutable coll.get(k): defined on maps and on lists indexed by an
in-range non-negative number; undefined (none) everywhere else. -/
def iget : IVal → Key → Option IVal
  | .map es, k => mapGet es k
  | .list xs, .num n => if 0 ≤ n then listGet xs n.toNat else none
  | _, _ => none

/-- Immutable coll.set(k, c) for one level: total on maps; on lists it
replaces an in-range index or appends at index = length; list indices
outside 0..length, string keys on lists and non-collection targets are
a modelling boundary, rendered as none. -/
def iset : IVal → Key → IVal → Option IVal
  | .map es, k, c => some (.map (mapSet es k c))
  | .list xs, .num n, c =>
      if 0 ≤ n ∧ n.toNat < xs.length then some (.list (listSet xs n.toNat c))
      else if 0 ≤ n ∧ n.toNat = xs.length then some (.list (xs ++ [c]))
      else none
  | _, _, _ => none

/-- Immutable getIn: follow the key path, undefined (none) on any miss. -/
def getIn : IVal → List Key → Option IVal
  | v, [] => some v
  | v, k :: rest =>
      match iget v k with
      | some c => getIn c rest
      | none => none

/-- Immutable setIn: write x at the key path, creating an empty map at
every missing intermediate key; descending through an existing
non-collection value throws, modelled as none. -/
def setIn : IVal → List Key → IVal → Option IVal
  | _, [], x => some x
  | v, k :: rest, x =>
      match setIn ((iget v k).getD (IVal.map [])) rest x with
      | some c => iset v k c
      | none => none

mutual

/-- Immutable.fromJS: objects become maps with string keys, arrays
become lists, scalars are unchanged. -/
def fromJS : Json → IVal
  | .null => .null
  | .bool b => .bool b
  | .num n => .num n
  | .str s => .str s
  | .arr items => .list (fromJSList items)
  | .obj fields => .map (fromJSFields fields)

/-- fromJS mapped over the elements of a JS array. -/
def fromJSList : List Json → List IVal
  | [] => []
  | j :: rest => fromJS j :: fromJSList rest

/-- fromJS mapped over the fields of a JS object. -/
def fromJSFields : List (String × Json) → List (Key × IVal)
  | [] => []
  | (k, j) :: rest => (Key.str k, fromJS j) :: fromJSFields rest

end

/-- JS truthiness of a stored value.  An Option-level undefined is
handled by the caller; collections and refs are always truthy. -/
def truthy : IVal → Bool
  | .null => false
  | .bool b => b
  | .num n => n != 0
  | .str s => s != ""
  | _ => true

/-- JS property lookup on the field list of a plain object. -/
def objGet : List (String × Json) → String → Option Json
  | [], _ => none
  | (k', v) :: rest, k => if k' = k then some v else objGet rest k

/-- JS property access data.k on a plain payload: a field of an
object, undefined (none) otherwise. -/
def jget : Json → String → Option Json
  | .obj fields, k => objGet fields k
  | _, _ => none

/-- One entry of a JS path array, which the source types as
Array of string or number. -/
def toKey : Json → Option Key
  | .str s => some (.str s)
  | .num n => some (.num n)
  | _ => none

/-- The elements of a JS path array as Immutable keys.  A non-key
element is a modelling boundary (the source trusts the shape). -/
def pathKeys : List Json → Option (List Key)
  | [] => some []
  | j :: rest =>
      match toKey j, pathKeys rest with
      | some k, some ks => some (k :: ks)
      | _, _ => none

/-- data.path as a key path, when data.path is an array of keys. -/
def dataPathKeys : Json → Option (List Key)
  | .arr items => pathKeys items
  | _ => none

/-- The comm actions dispatched to the reducer; unknown stands for
every action type outside the three recognized ones. -/
inductive CommAction where
  | registerCommTarget : String → IVal → CommAction
  | commOpen : String → String → String → Json → CommAction
  | commMessage : String → Json → CommAction
  | unknown : String → CommAction

/-- The initial comm state: targets, models and info all empty. -/
def defaultCommState : IVal :=
  .map [(.str "targets", .map []), (.str "models", .map []), (.str "info", .map [])]

/-- registerCommTarget from comms.js:
state.setIn(["targets", action.name], action.handler). -/
def registerCommTarget (state : IVal) (name : String) (handler : IVal) : Option IVal :=
  setIn state [.str "targets", .str name] handler

/-- processCommOpen from comms.js: store the info record built from
target_module and target_name, then the fromJS copy of data, both
under comm_id. -/
def processCommOpen (state : IVal) (comm_id target_name target_module : String)
    (data : Json) : Option IVal :=
  match setIn state [.str "info", .str comm_id]
      (fromJS (.obj [("target_module", .str target_module),
                     ("target_name", .str target_name)])) with
  | some s1 => setIn s1 [.str "models", .str comm_id] (fromJS data)
  | none => none

/-- JS strict equality of a looked-up value against a string literal:
true exactly when the lookup yields that string. -/
def igetStrEq (v : IVal) (k : Key) (target : String) : Bool :=
  match iget v k with
  | some (.str m) => m == target
  | _ => false

/-- The branch condition of processCommMessage: the info record looked
up for comm_id is truthy, its target_module is the string reducers and
its target_name is the string setIn. -/
def commInfoMatches (state : IVal) (comm_id : String) : Bool :=
  match getIn state [.str "info", .str comm_id] with
  | none => false
  | some commInfo =>
      truthy commInfo
        && igetStrEq commInfo (.str "target_module") "reducers"
        && igetStrEq commInfo (.str "target_name") "setIn"

/-- processCommMessage from comms.js.  When the info record matches the
reducers setIn convention, write fromJS of data.value at data.path
inside the comm model; otherwise replace the model with fromJS of
data.  A payload whose path is not an array of keys, or without a
value field, is outside the shapes the source trusts and is a
modelling boundary (none). -/
def processCommMessage (state : IVal) (comm_id : String) (data : Json) : Option IVal :=
  if commInfoMatches state comm_id then
    match dataPathKeys ((jget data "path").getD .null), jget data "value" with
    | some path, some v =>
        setIn state (.str "models" :: .str comm_id :: path) (fromJS v)
    | _, _ => none
  else
    setIn state [.str "models", .str comm_id] (fromJS data)

/-- The default export of comms.js: dispatch on the action type, with
the identity transition on every unrecognized action. -/
def commsReducer (state : IVal) : CommAction → Option IVal
  | .registerCommTarget name handler => registerCommTarget state name handler
  | .commOpen comm_id target_name target_module data =>
      processCommOpen state comm_id target_name target_module data
  | .commMessage comm_id data => processCommMessage state comm_id data
  | .unknown _ => some state

/-- One fold step of the dispatch loop driving the reducer. -/
def stepFold (acc : Option IVal) (a : CommAction) : Option IVal :=
  acc.bind (fun s => commsReducer s a)

/-- Run a sequence of actions from the initial state. -/
def runEvents (events : List CommAction) : Option IVal :=
  events.foldl stepFold (some defaultCommState)

/-- Two key paths diverge when at some depth reached by both they
carry different keys; equivalently, neither is a prefix of the other. -/
def diverges : List Key → List Key → Bool
  | [], _ => false
  | _ :: _, [] => false
  | kp :: p, kq :: q => if kp = kq then diverges p q else true

/-- The invariant of claim C5: every comm_id present in the info map
is also present in the models map. -/
def InfoSubsetModels (s : IVal) : Prop :=
  ∀ cid : String, (getIn s [.str "info", .str cid]).isSome = true →
    (getIn s [.str "models", .str cid]).isSome = true

/-- A state holding one open comm cid under the reducers setIn
convention, with model data a: (b: 1, c: 2). -/
def stateA : IVal :=
  .map [(.str "targets", .map []),
        (.str "models", .map [(.str "cid",
          fromJS (.obj [("a", .obj [("b", .num 1), ("c", .num 2)])]))]),
        (.str "info", .map [(.str "cid",
          fromJS (.obj [("target_module", .str "reducers"),
                        ("target_name", .str "setIn")]))])]

/-- The message payload path a b, value 99. -/
def msgA : Json := .obj [("path", .arr [.str "a", .str "b"]), ("value", .num 99)]

/-- The state stateA after the path-write of msgA: b now 99, c untouched. -/
def resultA : IVal :=
  .map [(.str "targets", .map []),
        (.str "models", .map [(.str "cid",
          fromJS (.obj [("a", .obj [("b", .num 99), ("c", .num 2)])]))]),
        (.str "info", .map [(.str "cid",
          fromJS (.obj [("target_module", .str "reducers"),
                        ("target_name", .str "setIn")]))])]

/-- The result of opening comm c1 (setIn, reducers, data count: 0) on
the initial state. -/
def c3Result : IVal :=
  .map [(.str "targets", .map []),
        (.str "models", .map [(.str "c1", .map [(.str "count", .num 0)])]),
        (.str "info", .map [(.str "c1",
          .map [(.str "target_module", .str "reducers"),
                (.str "target_name", .str "setIn")])])]

/-- A state with a matching info record for c9 but no model entry. -/
def c4State : IVal :=
  .map [(.str "targets", .map []), (.str "models", .map []),
        (.str "info", .map [(.str "c9",
          .map [(.str "target_module", .str "reducers"),
                (.str "target_name", .str "setIn")])])]

/-- One open event, for exercising the C5 invariant concretely. -/
def c5Events : List CommAction := [.commOpen "c1" "t" "m" (.num 3)]

/-- The state reached by c5Events. -/
def c5Result : IVal :=
  .map [(.str "targets", .map []),
        (.str "models", .map [(.str "c1", .num 3)]),
        (.str "info", .map [(.str "c1",
          .map [(.str "target_module", .str "m"),
                (.str "target_name", .str "t")])])]

/-- The result of registering target t with handler ref 2 on the
initial state. -/
def c7Result : IVal :=
  .map [(.str "targets", .map [(.str "t", .ref 2)]),
        (.str "models", .map []), (.str "info", .map [])]

/-- The event sequence of the spec E2E scenario, verbatim: the comm is
opened with target_name widget and target_module reducers. -/
def c8Events : List CommAction :=
  [ .registerCommTarget "widget" (.ref 0),
    .commOpen "c1" "widget" "reducers" (.obj [("count", .num 0)]),
    .commMessage "c1" (.obj [("path", .arr [.str "count"]), ("value", .num 5)]) ]

/-- The E2E scenario with target_name setIn instead, so that the
reducers setIn convention actually applies. -/
def c8AmendedEvents : List CommAction :=
  [ .registerCommTarget "widget" (.ref 0),
    .commOpen "c1" "setIn" "reducers" (.obj [("count", .num 0)]),
    .commMessage "c1" (.obj [("path", .arr [.str "count"]), ("value", .num 5)]) ]

theorem diverges_cons_same (k : Key) (p q : List Key) :
    diverges (k :: p) (k :: q) = diverges p q := by
  simp [diverges]

theorem diverges_cons_ne {k k' : Key} (h : ¬ k = k') (p q : List Key) :
    diverges (k :: p) (k' :: q) = true := by
  simp [diverges, h]

theorem listGet_listSet_self : ∀ (xs : List IVal) (i : Nat) (c : IVal),
    i < xs.length → listGet (listSet xs i c) i = some c
  | [], i, c, h => by simp at h
  | _ :: rest, 0, c, _ => rfl
  | _ :: rest, i + 1, c, h => by
    simpa [listSet, listGet] using listGet_listSet_self rest i c (by simpa using h)

theorem listGet_listSet_ne : ∀ (xs : List IVal) (i j : Nat) (c : IVal),
    i ≠ j → listGet (listSet xs i c) j = listGet xs j
  | [], _, _, _, _ => rfl
  | _ :: rest, 0, 0, c, h => absurd rfl h
  | _ :: rest, 0, j + 1, c, _ => rfl
  | _ :: rest, i + 1, 0, c, _ => rfl
  | _ :: rest, i + 1, j + 1, c, h => by
    simpa [listSet, listGet] using listGet_listSet_ne rest i j c (by omega)

theorem listGet_concat_self : ∀ (xs : List IVal) (c : IVal),
    listGet (xs ++ [c]) xs.length = some c
  | [], c => rfl
  | _ :: rest, c => by simpa [listGet] using listGet_concat_self rest c

theorem listGet_concat_ne : ∀ (xs : List IVal) (c : IVal) (j : Nat),
    j ≠ xs.length → listGet (xs ++ [c]) j = listGet xs j
  | [], c, 0, h => absurd rfl h
  | [], c, j + 1, _ => by simp [listGet]
  | _ :: rest, c, 0, _ => rfl
  | _ :: rest, c, j + 1, h => by
    simpa [listGet] using listGet_concat_ne rest c j (by simpa using h)

theorem length_listSet : ∀ (xs : List IVal) (i : Nat) (c : IVal),
    (listSet xs i c).length = xs.length
  | [], _, _ => rfl
  | _ :: rest, 0, _ => rfl
  | _ :: rest, i + 1, c => by simp [listSet, length_listSet rest i c]

theorem listSet_listSet : ∀ (xs : List IVal) (i : Nat) (c c2 : IVal),
    listSet (listSet xs i c) i c2 = listSet xs i c2
  | [], _, _, _ => rfl
  | _ :: rest, 0, _, _ => rfl
  | x :: rest, i + 1, c, c2 => by simp [listSet, listSet_listSet rest i c c2]

theorem listSet_concat : ∀ (xs : List IVal) (c c2 : IVal),
    listSet (xs ++ [c]) xs.length c2 = xs ++ [c2]
  | [], _, _ => rfl
  | x :: rest, c, c2 => by simp [listSet, listSet_concat rest c c2]

theorem mapGet_mapSet_self : ∀ (es : List (Key × IVal)) (k : Key) (v : IVal),
    mapGet (mapSet es k v) k = some v
  | [], k, v => by simp [mapSet, mapGet]
  | (k', v') :: rest, k, v => by
    by_cases h : k' = k
    · simp [mapSet, h, mapGet]
    · simp [mapSet, h, mapGet, mapGet_mapSet_self rest k v]

theorem mapGet_mapSet_ne : ∀ (es : List (Key × IVal)) (k : Key) (v : IVal) (q : Key),
    q ≠ k → mapGet (mapSet es k v) q = mapGet es q
  | [], k, v, q, h => by simp [mapSet, mapGet, Ne.symm h]
  | (k', v') :: rest, k, v, q, h => by
    by_cases hk : k' = k
    · subst hk
      simp [mapSet, mapGet, Ne.symm h]
    · simp [mapSet, hk, mapGet, mapGet_mapSet_ne rest k v q h]

theorem mapSet_mapSet : ∀ (es : List (Key × IVal)) (k : Key) (v1 v2 : IVal),
    mapSet (mapSet es k v1) k v2 = mapSet es k v2
  | [], k, v1, v2 => by simp [mapSet]
  | (k', v') :: rest, k, v1, v2 => by
    by_cases h : k' = k
    · simp [mapSet, h]
    · simp [mapSet, h, mapSet_mapSet rest k v1 v2]

theorem iget_iset_self (v : IVal) (k : Key) (c w : IVal) (h : iset v k c = some w) :
    iget w k = some c := by
  cases v with
  | map es =>
    cases h
    simpa [iget] using mapGet_mapSet_self es k c
  | list xs =>
    cases k with
    | str s => simp [iset] at h
    | num n =>
      by_cases h1 : 0 ≤ n ∧ n.toNat < xs.length
      · rw [iset] at h
        rw [if_pos h1] at h
        cases h
        simp [iget, h1.1, listGet_listSet_self xs n.toNat c h1.2]
      · by_cases h2 : 0 ≤ n ∧ n.toNat = xs.length
        · rw [iset, if_neg h1, if_pos h2] at h
          cases h
          simp [iget, h2.1, h2.2 ▸ listGet_concat_self xs c]
        · rw [iset, if_neg h1, if_neg h2] at h
          exact absurd h (by simp)
  | null => simp [iset] at h
  | bool b => simp [iset] at h
  | num n => simp [iset] at h
  | str s => simp [iset] at h
  | ref r => simp [iset] at h

theorem iget_iset_ne (v : IVal) (k : Key) (c w : IVal) (q : Key)
    (h : iset v k c = some w) (hne : q ≠ k) : iget w q = iget v q := by
  cases v with
  | map es =>
    cases h
    simpa [iget] using mapGet_mapSet_ne es k c q hne
  | list xs =>
    cases k with
    | str s => simp [iset] at h
    | num n =>
      by_cases h1 : 0 ≤ n ∧ n.toNat < xs.length
      · rw [iset, if_pos h1] at h
        cases h
        cases q with
        | str s => simp [iget]
        | num m =>
          by_cases hm : 0 ≤ m
          · have : n.toNat ≠ m.toNat := by
              intro heq
              apply hne
              have hmn : m = n := by omega
              rw [hmn]
            simp [iget, hm, listGet_listSet_ne xs n.toNat m.toNat c this]
          · simp [iget, hm]
      · by_cases h2 : 0 ≤ n ∧ n.toNat = xs.length
        · rw [iset, if_neg h1, if_pos h2] at h
          cases h
          cases q with
          | str s => simp [iget]
          | num m =>
            by_cases hm : 0 ≤ m
            · have : m.toNat ≠ xs.length := by
                intro heq
                apply hne
                have hmn : m = n := by omega
                rw [hmn]
              simp [iget, hm, listGet_concat_ne xs c m.toNat this]
            · simp [iget, hm]
        · rw [iset, if_neg h1, if_neg h2] at h
          exact absurd h (by simp)
  | null => simp [iset] at h
  | bool b => simp [iset] at h
  | num n => simp [iset] at h
  | str s => simp [iset] at h
  | ref r => simp [iset] at h

theorem iset_isSome_congr (v : IVal) (k : Key) (c1 c2 : IVal) :
    (iset v k c1).isSome = (iset v k c2).isSome := by
  cases v with
  | list xs =>
    cases k with
    | str s => rfl
    | num n =>
      by_cases h1 : 0 ≤ n ∧ n.toNat < xs.length
      · simp [iset, h1]
      · by_cases h2 : 0 ≤ n ∧ n.toNat = xs.length
        · simp [iset, h1, h2]
        · simp [iset, h1, h2]
  | map es => rfl
  | null => rfl
  | bool b => rfl
  | num n => rfl
  | str s => rfl
  | ref r => rfl

theorem iset_iset_absorb (v : IVal) (k : Key) (c w c2 : IVal)
    (h : iset v k c = some w) : iset w k c2 = iset v k c2 := by
  cases v with
  | map es =>
    cases h
    simp [iset, mapSet_mapSet]
  | list xs =>
    cases k with
    | str s => simp [iset] at h
    | num n =>
      by_cases h1 : 0 ≤ n ∧ n.toNat < xs.length
      · rw [iset, if_pos h1] at h
        cases h
        rw [iset, if_pos (by simp [length_listSet]; exact h1),
          iset, if_pos h1, listSet_listSet]
      · by_cases h2 : 0 ≤ n ∧ n.toNat = xs.length
        · rw [iset, if_neg h1, if_pos h2] at h
          cases h
          rw [iset, if_pos (by simp; omega), iset, if_neg h1, if_pos h2,
            h2.2, listSet_concat]
        · rw [iset, if_neg h1, if_neg h2] at h
          exact absurd h (by simp)
  | null => simp [iset] at h
  | bool b => simp [iset] at h
  | num n => simp [iset] at h
  | str s => simp [iset] at h
  | ref r => simp [iset] at h

theorem getIn_setIn_self : ∀ (p : List Key) (v x w : IVal),
    setIn v p x = some w → getIn w p = some x
  | [], v, x, w, h => by
    cases h
    rfl
  | k :: rest, v, x, w, h => by
    simp only [setIn] at h
    cases h0 : setIn ((iget v k).getD (IVal.map [])) rest x with
    | none =>
      rw [h0] at h
      exact absurd h (by simp)
    | some c =>
      rw [h0] at h
      have hg : iget w k = some c := iget_iset_self v k c w h
      simp only [getIn, hg]
      exact getIn_setIn_self rest _ x c h0

theorem getIn_setIn_fresh : ∀ (p q : List Key) (x c : IVal),
    setIn (IVal.map []) p x = some c → diverges p q = true → getIn c q = none
  | [], q, x, c, h, hd => by simp [diverges] at hd
  | k :: rest, q, x, c, h, hd => by
    simp only [setIn] at h
    rw [show (iget (IVal.map []) k).getD (IVal.map []) = IVal.map [] from rfl] at h
    cases h0 : setIn (IVal.map []) rest x with
    | none =>
      rw [h0] at h
      exact absurd h (by simp)
    | some c' =>
      rw [h0] at h
      have h' : some (IVal.map [(k, c')]) = some c := h
      have hc : c = IVal.map [(k, c')] := (Option.some_inj.mp h').symm
      subst hc
      cases q with
      | nil => simp [diverges] at hd
      | cons kq q' =>
        by_cases hk : kq = k
        · subst hk
          rw [diverges_cons_same] at hd
          simp only [getIn, iget, mapGet, if_pos rfl]
          exact getIn_setIn_fresh rest q' x c' h0 hd
        · simp [getIn, iget, mapGet, Ne.symm hk]

theorem getIn_setIn_frame : ∀ (p q : List Key) (v x w : IVal),
    setIn v p x = some w → diverges p q = true → getIn w q = getIn v q
  | [], q, v, x, w, h, hd => by simp [diverges] at hd
  | k :: rest, q, v, x, w, h, hd => by
    simp only [setIn] at h
    cases h0 : setIn ((iget v k).getD (IVal.map [])) rest x with
    | none =>
      rw [h0] at h
      exact absurd h (by simp)
    | some c =>
      rw [h0] at h
      cases q with
      | nil => simp [diverges] at hd
      | cons kq q' =>
        by_cases hk : kq = k
        · subst hk
          rw [diverges_cons_same] at hd
          have hg : iget w kq = some c := iget_iset_self v kq c w h
          simp only [getIn, hg]
          cases h1 : iget v kq with
          | some c0 =>
            rw [h1, Option.getD_some] at h0
            exact getIn_setIn_frame rest q' c0 x c h0 hd
          | none =>
            rw [h1, Option.getD_none] at h0
            exact getIn_setIn_fresh rest q' x c h0 hd
        · have hg : iget w kq = iget v kq := iget_iset_ne v k c w kq h hk
          simp only [getIn, hg]

theorem getIn_isSome_of_setIn_append : ∀ (q r : List Key) (v x w : IVal),
    setIn v (q ++ r) x = some w → (getIn w q).isSome = true
  | [], r, v, x, w, h => by simp [getIn]
  | kq :: q', r, v, x, w, h => by
    rw [show (kq :: q') ++ r = kq :: (q' ++ r) from rfl] at h
    simp only [setIn] at h
    cases h0 : setIn ((iget v kq).getD (IVal.map [])) (q' ++ r) x with
    | none =>
      rw [h0] at h
      exact absurd h (by simp)
    | some c =>
      rw [h0] at h
      have hg : iget w kq = some c := iget_iset_self v kq c w h
      simp only [getIn, hg]
      exact getIn_isSome_of_setIn_append q' r _ x c h0

theorem setIn_emptyMap_isSome : ∀ (p : List Key) (x : IVal),
    (setIn (IVal.map []) p x).isSome = true
  | [], x => rfl
  | k :: rest, x => by
    simp only [setIn]
    rw [show (iget (IVal.map []) k).getD (IVal.map []) = IVal.map [] from rfl]
    cases h0 : setIn (IVal.map []) rest x with
    | none =>
      have hrec := setIn_emptyMap_isSome rest x
      rw [h0] at hrec
      simp at hrec
    | some c => simp [iset]

theorem setIn_isSome_congr : ∀ (p : List Key) (v x1 x2 : IVal),
    (setIn v p x1).isSome = (setIn v p x2).isSome
  | [], v, x1, x2 => rfl
  | k :: rest, v, x1, x2 => by
    simp only [setIn]
    cases h1 : setIn ((iget v k).getD (IVal.map [])) rest x1 with
    | none =>
      cases h2 : setIn ((iget v k).getD (IVal.map [])) rest x2 with
      | none => rfl
      | some c2 =>
        have hrec := setIn_isSome_congr rest ((iget v k).getD (IVal.map [])) x1 x2
        rw [h1, h2] at hrec
        simp at hrec
    | some c1 =>
      cases h2 : setIn ((iget v k).getD (IVal.map [])) rest x2 with
      | none =>
        have hrec := setIn_isSome_congr rest ((iget v k).getD (IVal.map [])) x1 x2
        rw [h1, h2] at hrec
        simp at hrec
      | some c2 =>
        exact iset_isSome_congr v k c1 c2

theorem setIn_setIn_absorb : ∀ (p : List Key) (v x1 x2 s1 : IVal),
    setIn v p x1 = some s1 → setIn s1 p x2 = setIn v p x2
  | [], v, x1, x2, s1, h => by
    cases h
    rfl
  | k :: rest, v, x1, x2, s1, h => by
    simp only [setIn] at h ⊢
    cases h0 : setIn ((iget v k).getD (IVal.map [])) rest x1 with
    | none =>
      rw [h0] at h
      exact absurd h (by simp)
    | some c =>
      rw [h0] at h
      have hg : iget s1 k = some c := iget_iset_self v k c s1 h
      rw [hg, Option.getD_some,
        setIn_setIn_absorb rest ((iget v k).getD (IVal.map [])) x1 x2 c h0]
      cases h2 : setIn ((iget v k).getD (IVal.map [])) rest x2 with
      | none => rfl
      | some c2 => exact iset_iset_absorb v k c s1 c2 h

theorem igetStrEq_eq_true_iff (v : IVal) (k : Key) (t : String) :
    igetStrEq v k t = true ↔ iget v k = some (.str t) := by
  unfold igetStrEq
  rw [show iget v k = iget v k from rfl]
  cases h : iget v k with
  | none => simp
  | some y => cases y <;> simp

theorem truthy_of_iget_some (v : IVal) (k : Key) (y : IVal) (h : iget v k = some y) :
    truthy v = true := by
  cases v with
  | map es => rfl
  | list xs => rfl
  | ref r => rfl
  | null => simp [iget] at h
  | bool b => simp [iget] at h
  | num n => simp [iget] at h
  | str s => simp [iget] at h

theorem setIn_cons_isSome_of_map (es : List (Key × IVal)) (k : Key)
    (rest : List Key) (x : IVal)
    (h : (setIn ((iget (IVal.map es) k).getD (IVal.map [])) rest x).isSome = true) :
    (setIn (IVal.map es) (k :: rest) x).isSome = true := by
  rw [setIn]
  cases h0 : setIn ((iget (IVal.map es) k).getD (IVal.map [])) rest x with
  | none =>
    rw [h0] at h
    simp at h
  | some c => simp [iset]

theorem processCommOpen_frame (s s' : IVal) (cid tn tm : String) (d : Json)
    (q : List Key) (h : processCommOpen s cid tn tm d = some s')
    (h1 : diverges [Key.str "info", Key.str cid] q = true)
    (h2 : diverges [Key.str "models", Key.str cid] q = true) :
    getIn s' q = getIn s q := by
  unfold processCommOpen at h
  cases hs1 : setIn s [.str "info", .str cid]
      (fromJS (.obj [("target_module", .str tm), ("target_name", .str tn)])) with
  | none =>
    rw [hs1] at h
    exact absurd h (by simp)
  | some s1 =>
    rw [hs1] at h
    rw [getIn_setIn_frame _ _ s1 _ s' h h2]
    exact getIn_setIn_frame _ _ s _ s1 hs1 h1

theorem processCommMessage_frame (s s' : IVal) (cid : String) (d : Json)
    (q : List Key) (h : processCommMessage s cid d = some s')
    (hq : ∀ rest : List Key,
      diverges (Key.str "models" :: Key.str cid :: rest) q = true) :
    getIn s' q = getIn s q := by
  unfold processCommMessage at h
  cases hm : commInfoMatches s cid with
  | false =>
    rw [hm, if_neg (by simp)] at h
    exact getIn_setIn_frame _ _ s _ s' h (hq [])
  | true =>
    rw [hm, if_pos rfl] at h
    cases hp : dataPathKeys ((jget d "path").getD .null) with
    | none =>
      rw [hp] at h
      simp at h
    | some path =>
      rw [hp] at h
      cases hv : jget d "value" with
      | none =>
        rw [hv] at h
        simp at h
      | some v =>
        rw [hv] at h
        exact getIn_setIn_frame _ _ s _ s' h (hq path)

theorem foldl_stepFold_none : ∀ (events : List CommAction),
    events.foldl stepFold none = none
  | [] => rfl
  | a :: rest => by
    simp only [List.foldl_cons]
    rw [show stepFold none a = none from rfl]
    exact foldl_stepFold_none rest

theorem commsReducer_preserves_infoSubset (s : IVal) (a : CommAction) (s' : IVal)
    (h : commsReducer s a = some s') (hinv : InfoSubsetModels s) :
    InfoSubsetModels s' := by
  cases a with
  | unknown tag => exact (Option.some_inj.mp h) ▸ hinv
  | registerCommTarget nm hd =>
    intro cid hc
    have hr : setIn s [Key.str "targets", Key.str nm] hd = some s' := h
    have hf1 : getIn s' [.str "info", .str cid] = getIn s [.str "info", .str cid] :=
      getIn_setIn_frame _ _ s hd s' hr (diverges_cons_ne (by decide) _ _)
    have hf2 : getIn s' [.str "models", .str cid] = getIn s [.str "models", .str cid] :=
      getIn_setIn_frame _ _ s hd s' hr (diverges_cons_ne (by decide) _ _)
    rw [hf2]
    rw [hf1] at hc
    exact hinv cid hc
  | commOpen ocid tn tm d =>
    intro cid hc
    have hr : processCommOpen s ocid tn tm d = some s' := h
    by_cases hcid : cid = ocid
    · subst hcid
      unfold processCommOpen at hr
      cases hs1 : setIn s [.str "info", .str cid]
          (fromJS (.obj [("target_module", .str tm), ("target_name", .str tn)])) with
      | none =>
        rw [hs1] at hr
        exact absurd hr (by simp)
      | some s1 =>
        rw [hs1] at hr
        rw [getIn_setIn_self _ s1 _ s' hr]
        rfl
    · have hne : Key.str ocid ≠ Key.str cid := by
        intro hh
        injection hh with h2
        exact hcid h2.symm
      have hf1 : getIn s' [.str "info", .str cid] = getIn s [.str "info", .str cid] :=
        processCommOpen_frame s s' ocid tn tm d _ hr
          (by rw [diverges_cons_same]; exact diverges_cons_ne hne _ _)
          (diverges_cons_ne (by decide) _ _)
      have hf2 : getIn s' [.str "models", .str cid] = getIn s [.str "models", .str cid] :=
        processCommOpen_frame s s' ocid tn tm d _ hr
          (diverges_cons_ne (by decide) _ _)
          (by rw [diverges_cons_same]; exact diverges_cons_ne hne _ _)
      rw [hf2]
      rw [hf1] at hc
      exact hinv cid hc
  | commMessage mcid d =>
    intro cid hc
    have hr : processCommMessage s mcid d = some s' := h
    have hf1 : getIn s' [.str "info", .str cid] = getIn s [.str "info", .str cid] :=
      processCommMessage_frame s s' mcid d _ hr
        (fun rest => diverges_cons_ne (by decide) _ _)
    rw [hf1] at hc
    by_cases hcid : cid = mcid
    · subst hcid
      unfold processCommMessage at hr
      cases hm : commInfoMatches s cid with
      | false =>
        rw [hm, if_neg (by simp)] at hr
        rw [getIn_setIn_self _ s _ s' hr]
        rfl
      | true =>
        rw [hm, if_pos rfl] at hr
        cases hp : dataPathKeys ((jget d "path").getD .null) with
        | none =>
          rw [hp] at hr
          simp at hr
        | some path =>
          rw [hp] at hr
          cases hv : jget d "value" with
          | none =>
            rw [hv] at hr
            simp at hr
          | some v =>
            rw [hv] at hr
            exact getIn_isSome_of_setIn_append [.str "models", .str cid] path s
              (fromJS v) s' hr
    · have hne : Key.str mcid ≠ Key.str cid := by
        intro hh
        injection hh with h2
        exact hcid h2.symm
      have hf2 : getIn s' [.str "models", .str cid] = getIn s [.str "models", .str cid] :=
        processCommMessage_frame s s' mcid d _ hr
          (fun rest => by rw [diverges_cons_same]; exact diverges_cons_ne hne _ _)
      rw [hf2]
      exact hinv cid hc

/-- Claim C1: a CommMessage is interpreted as a targeted path update if
and only if an info record exists for the comm_id whose target_module
is reducers and whose target_name is setIn; in every other case the
transition sets models comm_id to the deep copy fromJS of the whole
data payload, a full replacement regardless of the shape of data. -/
theorem C1_message_branch_selection (s : IVal) (cid : String) (data : Json) :
    (commInfoMatches s cid = true ↔
      ∃ i, getIn s [.str "info", .str cid] = some i
        ∧ iget i (.str "target_module") = some (.str "reducers")
        ∧ iget i (.str "target_name") = some (.str "setIn"))
    ∧ (commInfoMatches s cid = false →
        processCommMessage s cid data
          = setIn s [.str "models", .str cid] (fromJS data))
    ∧ (∀ (path : List Key) (v : Json),
        commInfoMatches s cid = true →
        dataPathKeys ((jget data "path").getD .null) = some path →
        jget data "value" = some v →
        processCommMessage s cid data
          = setIn s (.str "models" :: .str cid :: path) (fromJS v)) := by
  refine ⟨?_, ?_, ?_⟩
  · unfold commInfoMatches
    cases hg : getIn s [.str "info", .str cid] with
    | none => simp
    | some i =>
      simp only [Bool.and_eq_true, igetStrEq_eq_true_iff, Option.some_inj]
      constructor
      · rintro ⟨⟨ht, hm⟩, hn⟩
        exact ⟨i, rfl, hm, hn⟩
      · rintro ⟨i', hi', hm, hn⟩
        subst hi'
        exact ⟨⟨truthy_of_iget_some _ _ _ hm, hm⟩, hn⟩
  · intro hfalse
    simp [processCommMessage, hfalse]
  · intro path v hmatch hp hv
    simp [processCommMessage, hmatch, hp, hv]

/-- Witness for C1: on the initial state, where no info record exists,
a numeric message payload is stored wholesale. -/
theorem C1_witness :
    processCommMessage defaultCommState "c" (Json.num 1)
      = setIn defaultCommState [.str "models", .str "c"] (fromJS (Json.num 1)) :=
  (C1_message_branch_selection defaultCommState "c" (Json.num 1)).2.1 rfl

/-- Claim C2: under the reducers setIn convention, a CommMessage with a
path and a value writes fromJS of the value at that path inside the
comm model, leaves every diverging location of that model unchanged,
and leaves every other comm model unchanged. -/
theorem C2_deep_path_write (s w : IVal) (cid : String) (data : Json)
    (path : List Key) (v : Json)
    (hmatch : commInfoMatches s cid = true)
    (hpath : dataPathKeys ((jget data "path").getD .null) = some path)
    (hval : jget data "value" = some v)
    (hw : processCommMessage s cid data = some w) :
    getIn w (.str "models" :: .str cid :: path) = some (fromJS v)
    ∧ (∀ q : List Key, diverges path q = true →
        getIn w (.str "models" :: .str cid :: q)
          = getIn s (.str "models" :: .str cid :: q))
    ∧ (∀ cid' : String, cid' ≠ cid →
        getIn w [.str "models", .str cid'] = getIn s [.str "models", .str cid']) := by
  have hset : setIn s (.str "models" :: .str cid :: path) (fromJS v) = some w := by
    rw [← hw]
    simp [processCommMessage, hmatch, hpath, hval]
  refine ⟨getIn_setIn_self _ s (fromJS v) w hset, ?_, ?_⟩
  · intro q hq
    apply getIn_setIn_frame _ _ s (fromJS v) w hset
    rw [diverges_cons_same, diverges_cons_same]
    exact hq
  · intro cid' hne
    apply getIn_setIn_frame _ _ s (fromJS v) w hset
    rw [diverges_cons_same]
    refine diverges_cons_ne ?_ path []
    intro hh
    injection hh with h2
    exact hne h2.symm

/-- Witness for C2, the spec P4 instance: from model a: (b: 1, c: 2),
the message path a b value 99 yields b 99 with sibling c untouched. -/
theorem C2_witness :
    getIn resultA [.str "models", .str "cid", .str "a", .str "b"] = some (.num 99)
    ∧ getIn resultA [.str "models", .str "cid"]
        = some (fromJS (.obj [("a", .obj [("b", .num 99), ("c", .num 2)])])) := by
  refine ⟨?_, by rfl⟩
  exact (C2_deep_path_write stateA resultA "cid" msgA [.str "a", .str "b"] (.num 99)
    rfl rfl rfl rfl).1

/-- Claim C3: after a CommOpen, info comm_id holds exactly the record
built from the event target_module and target_name and models comm_id
holds exactly fromJS of the event data, whatever was stored before. -/
theorem C3_open_overwrites (s s' : IVal) (cid tn tm : String) (data : Json)
    (h : processCommOpen s cid tn tm data = some s') :
    getIn s' [.str "info", .str cid]
      = some (fromJS (.obj [("target_module", .str tm), ("target_name", .str tn)]))
    ∧ getIn s' [.str "models", .str cid] = some (fromJS data) := by
  unfold processCommOpen at h
  cases h1 : setIn s [.str "info", .str cid]
      (fromJS (.obj [("target_module", .str tm), ("target_name", .str tn)])) with
  | none =>
    rw [h1] at h
    exact absurd h (by simp)
  | some s1 =>
    rw [h1] at h
    constructor
    · rw [getIn_setIn_frame _ _ s1 (fromJS data) s' h (diverges_cons_ne (by decide) _ _)]
      exact getIn_setIn_self _ s _ s1 h1
    · exact getIn_setIn_self _ s1 _ s' h

/-- Witness for C3: opening c1 (setIn, reducers, data count 0) on the
initial state produces the paired entries. -/
theorem C3_witness :
    getIn c3Result [.str "info", .str "c1"]
      = some (fromJS (.obj [("target_module", .str "reducers"),
                            ("target_name", .str "setIn")]))
    ∧ getIn c3Result [.str "models", .str "c1"]
        = some (fromJS (.obj [("count", .num 0)])) :=
  C3_open_overwrites defaultCommState c3Result "c1" "setIn" "reducers"
    (.obj [("count", .num 0)]) rfl

/-- Claim C4: when the info record matches the reducers setIn
convention but models has no entry for comm_id (the models map lacks
the key, or is absent altogether), a CommMessage carrying a path and a
value does not fail: the transition builds the missing containers and
stores fromJS of the value at the path. -/
theorem C4_path_write_without_model (es : List (Key × IVal)) (cid : String)
    (data : Json) (path : List Key) (v : Json)
    (hmodels : mapGet es (.str "models") = none
      ∨ ∃ ms, mapGet es (.str "models") = some (.map ms) ∧ mapGet ms (.str cid) = none)
    (hmatch : commInfoMatches (.map es) cid = true)
    (hpath : dataPathKeys ((jget data "path").getD .null) = some path)
    (hval : jget data "value" = some v) :
    (processCommMessage (.map es) cid data).isSome = true
    ∧ (processCommMessage (.map es) cid data).bind
        (fun w => getIn w (.str "models" :: .str cid :: path)) = some (fromJS v) := by
  have heq : processCommMessage (.map es) cid data
      = setIn (.map es) (.str "models" :: .str cid :: path) (fromJS v) := by
    simp [processCommMessage, hmatch, hpath, hval]
  have hs : (setIn ((iget (IVal.map es) (.str "models")).getD (IVal.map []))
      (.str cid :: path) (fromJS v)).isSome = true := by
    rcases hmodels with hnone | ⟨ms, hms, hcid⟩
    · rw [show iget (IVal.map es) (.str "models") = mapGet es (.str "models") from rfl,
        hnone, Option.getD_none]
      exact setIn_emptyMap_isSome _ _
    · rw [show iget (IVal.map es) (.str "models") = mapGet es (.str "models") from rfl,
        hms, Option.getD_some]
      apply setIn_cons_isSome_of_map
      rw [show iget (IVal.map ms) (.str cid) = mapGet ms (.str cid) from rfl,
        hcid, Option.getD_none]
      exact setIn_emptyMap_isSome _ _
  have hsome : (setIn (IVal.map es) (.str "models" :: .str cid :: path)
      (fromJS v)).isSome = true :=
    setIn_cons_isSome_of_map es (.str "models") (.str cid :: path) (fromJS v) hs
  rw [heq]
  cases hw : setIn (IVal.map es) (.str "models" :: .str cid :: path) (fromJS v) with
  | none =>
    rw [hw] at hsome
    simp at hsome
  | some w =>
    exact ⟨rfl, getIn_setIn_self _ _ _ _ hw⟩

/-- Witness for C4: a path-write to c9, which has a matching info
record and no model, succeeds and stores the value. -/
theorem C4_witness :
    (processCommMessage c4State "c9"
        (Json.obj [("path", .arr [.str "x", .str "y"]), ("value", .num 7)])).isSome = true
    ∧ (processCommMessage c4State "c9"
        (Json.obj [("path", .arr [.str "x", .str "y"]), ("value", .num 7)])).bind
        (fun w => getIn w [.str "models", .str "c9", .str "x", .str "y"])
      = some (fromJS (.num 7)) :=
  C4_path_write_without_model
    [(.str "targets", .map []), (.str "models", .map []),
     (.str "info", .map [(.str "c9",
       .map [(.str "target_module", .str "reducers"),
             (.str "target_name", .str "setIn")])])]
    "c9" (Json.obj [("path", .arr [.str "x", .str "y"]), ("value", .num 7)])
    [.str "x", .str "y"] (.num 7)
    (Or.inr ⟨[], rfl, rfl⟩) rfl rfl rfl

/-- Claim C5: in every state reachable from the initial state, every
comm_id present in the info map is also present in the models map. -/
theorem C5_info_implies_model (events : List CommAction) (s : IVal)
    (h : runEvents events = some s) : InfoSubsetModels s := by
  suffices haux : ∀ (evs : List CommAction) (s0 sf : IVal), InfoSubsetModels s0 →
      evs.foldl stepFold (some s0) = some sf → InfoSubsetModels sf by
    refine haux events defaultCommState s ?_ h
    intro cid hc
    rw [show getIn defaultCommState [.str "info", .str cid] = none from rfl] at hc
    simp at hc
  intro evs
  induction evs with
  | nil =>
    intro s0 sf h0 hf
    exact (Option.some_inj.mp hf) ▸ h0
  | cons a rest ih =>
    intro s0 sf h0 hf
    simp only [List.foldl_cons] at hf
    cases ha : commsReducer s0 a with
    | none =>
      rw [show stepFold (some s0) a = commsReducer s0 a from rfl, ha,
        foldl_stepFold_none] at hf
      exact absurd hf (by simp)
    | some s1 =>
      rw [show stepFold (some s0) a = commsReducer s0 a from rfl, ha] at hf
      exact ih s1 sf (commsReducer_preserves_infoSubset s0 a s1 ha h0) hf

/-- Witness for C5: after one open event the model entry for c1 is
present because the info entry is. -/
theorem C5_witness : (getIn c5Result [.str "models", .str "c1"]).isSome = true :=
  C5_info_implies_model c5Events c5Result rfl "c1" rfl

/-- Claim C6: the reducer is total over action kinds: any action other
than the three recognized ones yields exactly the input state, with no
error signal. -/
theorem C6_unknown_action_identity (s : IVal) (tag : String) :
    commsReducer s (.unknown tag) = some s := rfl

/-- Claim C7: registering t with h1 then h2 equals registering h2
alone, so targets t is h2 with no residual trace of h1; a successful
registration stores the handler under its name; and no event removes
an existing registry entry. -/
theorem C7_register_last_wins :
    (∀ (s : IVal) (t : String) (h1 h2 : IVal),
        (registerCommTarget s t h1).bind (fun s1 => registerCommTarget s1 t h2)
          = registerCommTarget s t h2)
    ∧ (∀ (s s' : IVal) (t : String) (h : IVal),
        registerCommTarget s t h = some s' →
        getIn s' [.str "targets", .str t] = some h)
    ∧ (∀ (s s' : IVal) (a : CommAction) (nm : String),
        commsReducer s a = some s' →
        (getIn s [.str "targets", .str nm]).isSome = true →
        (getIn s' [.str "targets", .str nm]).isSome = true) := by
  refine ⟨?_, ?_, ?_⟩
  · intro s t h1 h2
    simp only [registerCommTarget]
    cases hr : setIn s [.str "targets", .str t] h1 with
    | none =>
      have hc := setIn_isSome_congr [Key.str "targets", Key.str t] s h1 h2
      rw [hr] at hc
      cases h2' : setIn s [.str "targets", .str t] h2 with
      | none => rfl
      | some w =>
        rw [h2'] at hc
        simp at hc
    | some s1 =>
      exact setIn_setIn_absorb _ s h1 h2 s1 hr
  · intro s s' t hv hr
    exact getIn_setIn_self [Key.str "targets", Key.str t] s hv s' hr
  · intro s s' a nm hred hsome
    cases a with
    | unknown tag => exact (Option.some_inj.mp hred) ▸ hsome
    | registerCommTarget nm' hd =>
      have hr : setIn s [Key.str "targets", Key.str nm'] hd = some s' := hred
      by_cases heq : nm = nm'
      · subst heq
        rw [getIn_setIn_self _ s hd s' hr]
        rfl
      · have hne : Key.str nm' ≠ Key.str nm := by
          intro hh
          injection hh with h2
          exact heq h2.symm
        rw [getIn_setIn_frame _ _ s hd s' hr
          (by rw [diverges_cons_same]; exact diverges_cons_ne hne _ _)]
        exact hsome
    | commOpen cid tn tm d =>
      have hr : processCommOpen s cid tn tm d = some s' := hred
      rw [processCommOpen_frame s s' cid tn tm d _ hr
        (diverges_cons_ne (by decide) _ _) (diverges_cons_ne (by decide) _ _)]
      exact hsome
    | commMessage cid d =>
      have hr : processCommMessage s cid d = some s' := hred
      rw [processCommMessage_frame s s' cid d _ hr
        (fun rest => diverges_cons_ne (by decide) _ _)]
      exact hsome

/-- Witness for C7: the double registration law at ref 1 then ref 2,
the stored handler after a concrete registration, and preservation of
the entry across an unrecognized action. -/
theorem C7_witness :
    ((registerCommTarget defaultCommState "t" (.ref 1)).bind
        (fun s1 => registerCommTarget s1 "t" (.ref 2))
      = registerCommTarget defaultCommState "t" (.ref 2))
    ∧ getIn c7Result [.str "targets", .str "t"] = some (.ref 2)
    ∧ (getIn c7Result [.str "targets", .str "t"]).isSome = true :=
  ⟨C7_register_last_wins.1 defaultCommState "t" (.ref 1) (.ref 2),
   C7_register_last_wins.2.1 defaultCommState c7Result "t" (.ref 2) rfl,
   C7_register_last_wins.2.2 c7Result c7Result (.unknown "noop") "t" rfl rfl⟩

/-- Counterexample to claim C8 as stated: the spec E2E sequence opens
the comm with target_name widget, so the message takes the fallback
branch and models c1 becomes the whole payload with fields path and
value, not the object with count 5. -/
theorem C8_counterexample :
    (runEvents c8Events).bind (fun s => getIn s [.str "models", .str "c1"])
      = some (fromJS (.obj [("path", .arr [.str "count"]), ("value", .num 5)]))
    ∧ ((runEvents c8Events).bind (fun s => getIn s [.str "models", .str "c1"])
      ≠ some (fromJS (.obj [("count", .num 5)]))) := by
  refine ⟨rfl, ?_⟩
  intro h
  have h1 : some (fromJS (Json.obj [("path", .arr [.str "count"]), ("value", .num 5)]))
      = some (fromJS (.obj [("count", .num 5)])) := by
    rw [show some (fromJS (Json.obj [("path", Json.arr [Json.str "count"]),
        ("value", Json.num 5)]))
      = (runEvents c8Events).bind (fun s => getIn s [.str "models", .str "c1"])
      from rfl]
    exact h
  simp [fromJS, fromJSFields, fromJSList] at h1

/-- Claim C8 amended: with the comm opened under target_name setIn, as
the reducers setIn convention requires, the sequence register, open
with data count 0, message path count value 5 yields models c1
structurally equal to the object with count 5. -/
theorem C8_amended_scenario :
    (runEvents c8AmendedEvents).bind (fun s => getIn s [.str "models", .str "c1"])
      = some (fromJS (.obj [("count", .num 5)])) := rfl

/-- Claim C9: each event kind touches only its own keyspace: a
registration leaves the info and models maps unchanged, an open leaves
the targets map unchanged, and a message leaves both the targets and
info maps unchanged. -/
theorem C9_keyspace_separation :
    (∀ (s s' : IVal) (nm : String) (hd : IVal),
        registerCommTarget s nm hd = some s' →
        getIn s' [.str "info"] = getIn s [.str "info"]
          ∧ getIn s' [.str "models"] = getIn s [.str "models"])
    ∧ (∀ (s s' : IVal) (cid tn tm : String) (d : Json),
        processCommOpen s cid tn tm d = some s' →
        getIn s' [.str "targets"] = getIn s [.str "targets"])
    ∧ (∀ (s s' : IVal) (cid : String) (d : Json),
        processCommMessage s cid d = some s' →
        getIn s' [.str "targets"] = getIn s [.str "targets"]
          ∧ getIn s' [.str "info"] = getIn s [.str "info"]) := by
  refine ⟨?_, ?_, ?_⟩
  · intro s s' nm hd h
    have hr : setIn s [Key.str "targets", Key.str nm] hd = some s' := h
    exact ⟨getIn_setIn_frame _ _ s hd s' hr (diverges_cons_ne (by decide) _ _),
           getIn_setIn_frame _ _ s hd s' hr (diverges_cons_ne (by decide) _ _)⟩
  · intro s s' cid tn tm d h
    exact processCommOpen_frame s s' cid tn tm d _ h
      (diverges_cons_ne (by decide) _ _) (diverges_cons_ne (by decide) _ _)
  · intro s s' cid d h
    exact ⟨processCommMessage_frame s s' cid d _ h
        (fun rest => diverges_cons_ne (by decide) _ _),
      processCommMessage_frame s s' cid d _ h
        (fun rest => diverges_cons_ne (by decide) _ _)⟩

/-- Witness for C9: one concrete application per event kind. -/
theorem C9_witness :
    (getIn c7Result [.str "info"] = getIn defaultCommState [.str "info"]
      ∧ getIn c7Result [.str "models"] = getIn defaultCommState [.str "models"])
    ∧ getIn c3Result [.str "targets"] = getIn defaultCommState [.str "targets"]
    ∧ (getIn resultA [.str "targets"] = getIn stateA [.str "targets"]
      ∧ getIn resultA [.str "info"] = getIn stateA [.str "info"]) :=
  ⟨C9_keyspace_separation.1 defaultCommState c7Result "t" (.ref 2) rfl,
   C9_keyspace_separation.2.1 defaultCommState c3Result "c1" "setIn" "reducers"
     (.obj [("count", .num 0)]) rfl,
   C9_keyspace_separation.2.2 stateA resultA "cid" msgA rfl⟩

/-- Claim C10: when the reducers setIn convention matches and the
message path is the empty array, the model for comm_id is replaced
entirely by fromJS of the value field of data, not by fromJS of data
itself. -/
theorem C10_empty_path_replaces_with_value (s : IVal) (cid : String) (data v : Json)
    (hmatch : commInfoMatches s cid = true)
    (hpath : jget data "path" = some (Json.arr []))
    (hval : jget data "value" = some v) :
    processCommMessage s cid data = setIn s [.str "models", .str cid] (fromJS v)
    ∧ (∀ s', processCommMessage s cid data = some s' →
        getIn s' [.str "models", .str cid] = some (fromJS v)) := by
  have heq : processCommMessage s cid data
      = setIn s [.str "models", .str cid] (fromJS v) := by
    simp [processCommMessage, hmatch, hpath, hval, dataPathKeys, pathKeys]
  exact ⟨heq, fun s' hs' =>
    getIn_setIn_self [Key.str "models", Key.str cid] s (fromJS v) s' (heq ▸ hs')⟩

/-- Witness for C10: an empty-path message on stateA stores exactly the
value 42, not the payload object. -/
theorem C10_witness :
    processCommMessage stateA "cid" (Json.obj [("path", .arr []), ("value", .num 42)])
      = setIn stateA [.str "models", .str "cid"] (fromJS (Json.num 42)) :=
  (C10_empty_path_replaces_with_value stateA "cid"
    (Json.obj [("path", .arr []), ("value", .num 42)]) (.num 42) rfl rfl rfl).1

end CommsSpec
